import Mathlib

/-!
Verification of the Ray-based job dispatch and hyperparameter-tuning
utilities of this repository.

The development shallowly embeds the Python sources:

* `scripts/reinforcement_learning/ray/hyperparameter_tuning/rl_games_cfg.py`
  (`RLGamesJobCfg._get_batch_size_divisors`, `get_valid_batch_size`);
* `source/standalone/workflows/ray/wrap_isaac_ray_resources.py`
  (`execute_command`, `main`, `split_commands`, the `__main__` resource
  allocation);
* `scripts/reinforcement_learning/ray/hyperparameter_tuning/vision_cfg.py`
  (`CameraJobCfg.get_cnn_layers`).

Python `int` is embedded as `Int`, Python `//` as `Int.fdiv` and Python `%`
as `Int.fmod` (both floor-convention, matching CPython).  A computation that
can raise (`ZeroDivisionError`) is embedded in `Except`.  Python strings are
embedded as `List Char`.  Randomly sampled values (`ray.tune` samplers) are
embedded as explicit choice oracles: an oracle assigns to every sampling
step an index into the candidate list being sampled from, so quantifying
over all oracles covers every sequence of samples the library can draw.
-/

namespace IsaacRay

/-- Characters of a Python string. -/
abbrev Str := List Char

/-! ## Batch-size divisors (`rl_games_cfg.py`, lines 26-30 and 53-58)

```python
@staticmethod
def _get_batch_size_divisors(batch_size: int, min_size: int = 128) -> list[int]:
    divisors = [i for i in range(min_size, batch_size + 1) if batch_size % i == 0]
    return divisors if divisors else [min_size]

def get_valid_batch_size(config):
    ...
    divisors = self._get_batch_size_divisors(total_batch)
    return divisors[0]
```
-/

/-- `pyRangeAux lo n` is the list `[lo, lo+1, ..., lo+n-1]`. -/
def pyRangeAux (lo : Int) : Nat → List Int
  | 0 => []
  | n + 1 => lo :: pyRangeAux (lo + 1) n

/-- Python `range(lo, hi)` as a list. -/
def pyRange (lo hi : Int) : List Int := pyRangeAux lo (hi - lo).toNat

/-- The list comprehension filter `batch_size % i == 0` evaluated left to
right; `i = 0` raises `ZeroDivisionError` (embedded as `Except.error ()`). -/
def divisorScan (batch_size : Int) : List Int → Except Unit (List Int)
  | [] => .ok []
  | i :: rest =>
    if i = 0 then .error ()
    else (divisorScan batch_size rest).map
      (fun tl => if Int.fmod batch_size i = 0 then i :: tl else tl)

/-- `RLGamesJobCfg._get_batch_size_divisors`. -/
def get_batch_size_divisors (batch_size : Int) (min_size : Int := 128) :
    Except Unit (List Int) :=
  (divisorScan batch_size (pyRange min_size (batch_size + 1))).map
    (fun divisors => if divisors = [] then [min_size] else divisors)

/-- The spec's `BatchDivisorResolver.resolve`: the `divisors[0]` taken by
`get_valid_batch_size`.  The list returned by `get_batch_size_divisors` is
never empty (the source falls back to `[min_size]`), so the `headD 0`
default is never used. -/
def get_valid_batch_size (total_batch : Int) (min_size : Int := 128) :
    Except Unit Int :=
  (get_batch_size_divisors total_batch min_size).map (fun divisors => divisors.headD 0)

theorem mem_pyRangeAux {i lo : Int} {n : Nat} :
    i ∈ pyRangeAux lo n ↔ lo ≤ i ∧ i < lo + n := by
  induction n generalizing lo with
  | zero => simp [pyRangeAux]
  | succ n ih =>
    simp [pyRangeAux, ih]
    omega

theorem mem_pyRange {i lo hi : Int} : i ∈ pyRange lo hi ↔ lo ≤ i ∧ i < hi := by
  unfold pyRange
  rw [mem_pyRangeAux]
  omega

theorem pyRangeAux_pairwise (lo : Int) (n : Nat) :
    (pyRangeAux lo n).Pairwise (· < ·) := by
  induction n generalizing lo with
  | zero => simp [pyRangeAux]
  | succ n ih =>
    refine List.pairwise_cons.mpr ⟨?_, ih (lo + 1)⟩
    intro a ha
    have := mem_pyRangeAux.mp ha
    omega

theorem pyRange_pairwise (lo hi : Int) : (pyRange lo hi).Pairwise (· < ·) :=
  pyRangeAux_pairwise lo _

/-- When no element of the scanned list is zero, the scan does not raise and
returns the plain filter. -/
theorem divisorScan_eq_filter (b : Int) (l : List Int) (h : ∀ i ∈ l, i ≠ 0) :
    divisorScan b l = .ok (l.filter (fun i => Int.fmod b i = 0)) := by
  induction l with
  | nil => rfl
  | cons i rest ih =>
    have hi : i ≠ 0 := h i (List.mem_cons_self i rest)
    have hrest : ∀ j ∈ rest, j ≠ 0 := fun j hj => h j (List.mem_cons_of_mem i hj)
    simp only [divisorScan, if_neg hi, ih hrest, Except.map]
    by_cases hd : Int.fmod b i = 0 <;> simp [List.filter, hd]

/-- For a nonzero modulus, the Python test `b % i == 0` is divisibility. -/
theorem fmod_eq_zero_iff_dvd (b i : Int) (hi : 0 < i) :
    Int.fmod b i = 0 ↔ i ∣ b := by
  rw [Int.fmod_eq_emod b (le_of_lt hi), ← Int.dvd_iff_emod_eq_zero]

/-- Full characterization of `get_valid_batch_size` for a positive
`min_size`: it succeeds, its value is at least `min_size`, any value other
than `min_size` divides `total_batch`, and for a positive `total_batch` it
is the least divisor `≥ min_size` when one exists and `min_size` otherwise. -/
theorem get_valid_batch_size_characterization (tb ms : Int) (hms : 1 ≤ ms) :
    ∃ r, get_valid_batch_size tb ms = .ok r ∧ ms ≤ r ∧
      (r ≠ ms → r ∣ tb) ∧
      (1 ≤ tb →
        ((∃ d : Int, d ∣ tb ∧ ms ≤ d) →
          r ∣ tb ∧ ∀ d : Int, d ∣ tb → ms ≤ d → r ≤ d) ∧
        ((¬ ∃ d : Int, d ∣ tb ∧ ms ≤ d) → r = ms)) := by
  have hne : ∀ i ∈ pyRange ms (tb + 1), i ≠ 0 := by
    intro i hi
    have := mem_pyRange.mp hi
    omega
  have hscan := divisorScan_eq_filter tb (pyRange ms (tb + 1)) hne
  have hmemF : ∀ i : Int,
      i ∈ (pyRange ms (tb + 1)).filter (fun i => Int.fmod tb i = 0) ↔
        (ms ≤ i ∧ i < tb + 1) ∧ Int.fmod tb i = 0 := by
    intro i
    simp [List.mem_filter, mem_pyRange]
  have hpair : ((pyRange ms (tb + 1)).filter
      (fun i => Int.fmod tb i = 0)).Pairwise (· < ·) :=
    (pyRange_pairwise ms (tb + 1)).filter _
  cases hF : (pyRange ms (tb + 1)).filter (fun i => Int.fmod tb i = 0) with
  | nil =>
    refine ⟨ms, ?_, le_refl ms, ?_, ?_⟩
    · simp [get_valid_batch_size, get_batch_size_divisors, hscan, hF, Except.map]
    · intro h; exact absurd rfl h
    · intro htb
      have hnod : ¬ ∃ d : Int, d ∣ tb ∧ ms ≤ d := by
        rintro ⟨d, hd, hdge⟩
        have hd0 : 0 < d := lt_of_lt_of_le (by omega) hdge
        have hdle : d ≤ tb := Int.le_of_dvd (by omega) hd
        have : d ∈ (pyRange ms (tb + 1)).filter (fun i => Int.fmod tb i = 0) :=
          (hmemF d).mpr ⟨⟨hdge, by omega⟩, (fmod_eq_zero_iff_dvd tb d hd0).mpr hd⟩
        rw [hF] at this
        exact absurd this (List.not_mem_nil d)
      exact ⟨fun h => absurd h hnod, fun _ => rfl⟩
  | cons r tail =>
    have hrF : r ∈ (pyRange ms (tb + 1)).filter (fun i => Int.fmod tb i = 0) := by
      rw [hF]; exact List.mem_cons_self r tail
    obtain ⟨⟨hrge, hrlt⟩, hrmod⟩ := (hmemF r).mp hrF
    have hrdvd : r ∣ tb := (fmod_eq_zero_iff_dvd tb r (by omega)).mp hrmod
    refine ⟨r, ?_, hrge, fun _ => hrdvd, ?_⟩
    · simp [get_valid_batch_size, get_batch_size_divisors, hscan, hF, Except.map]
    · intro htb
      have hmin : ∀ d : Int, d ∣ tb → ms ≤ d → r ≤ d := by
        intro d hd hdge
        have hd0 : 0 < d := lt_of_lt_of_le (by omega) hdge
        have hdle : d ≤ tb := Int.le_of_dvd (by omega) hd
        have hdF : d ∈ (pyRange ms (tb + 1)).filter (fun i => Int.fmod tb i = 0) :=
          (hmemF d).mpr ⟨⟨hdge, by omega⟩, (fmod_eq_zero_iff_dvd tb d hd0).mpr hd⟩
        rw [hF] at hdF
        rcases List.mem_cons.mp hdF with h | h
        · omega
        · have := List.rel_of_pairwise_cons (hF ▸ hpair) h
          omega
      exact ⟨fun _ => ⟨hrdvd, hmin⟩, fun hn => absurd ⟨r, hrdvd, hrge⟩ hn⟩

/-- C1: for positive inputs, `BatchDivisorResolver.resolve`
(`get_valid_batch_size` over `_get_batch_size_divisors`) returns the
smallest divisor of `total_batch` that is `≥ min_size`, and returns
`min_size` itself when no such divisor exists; in particular
`resolve 130 128 = 130` and `resolve 127 128 = 128`. -/
theorem C1_resolve_smallest_divisor :
    (∀ tb ms : Int, 1 ≤ tb → 1 ≤ ms →
      ∃ r, get_valid_batch_size tb ms = .ok r ∧
        ((∃ d : Int, d ∣ tb ∧ ms ≤ d) →
          r ∣ tb ∧ ms ≤ r ∧ ∀ d : Int, d ∣ tb → ms ≤ d → r ≤ d) ∧
        ((¬ ∃ d : Int, d ∣ tb ∧ ms ≤ d) → r = ms)) ∧
    get_valid_batch_size 130 128 = .ok 130 ∧
    get_valid_batch_size 127 128 = .ok 128 := by
  refine ⟨?_, by rfl, by rfl⟩
  intro tb ms htb hms
  obtain ⟨r, hok, hge, _, hchar⟩ := get_valid_batch_size_characterization tb ms hms
  obtain ⟨hex, hnex⟩ := hchar htb
  exact ⟨r, hok, fun h => ⟨(hex h).1, hge, (hex h).2⟩, hnex⟩

/-- Witness for C1 at `total_batch = 130`, `min_size = 128`. -/
theorem C1_resolve_smallest_divisor_witness :
    ∃ r, get_valid_batch_size 130 128 = .ok r ∧
      ((∃ d : Int, d ∣ 130 ∧ 128 ≤ d) →
        r ∣ 130 ∧ 128 ≤ r ∧ ∀ d : Int, d ∣ 130 → 128 ≤ d → r ≤ d) ∧
      ((¬ ∃ d : Int, d ∣ 130 ∧ 128 ≤ d) → r = 128) :=
  C1_resolve_smallest_divisor.1 130 128 (by decide) (by decide)

/-- C2 counterexample: at `total_batch = 0`, `min_size = 0` the scanned
range is `[0]` and the Python comprehension evaluates `0 % 0`, raising
`ZeroDivisionError`; no value at all is returned, so the universally
quantified claim fails. -/
theorem C2_counterexample_resolve_zero_raises :
    get_valid_batch_size 0 0 = .error () ∧
    ∀ r : Int, get_valid_batch_size 0 0 ≠ .ok r := by
  refine ⟨by rfl, ?_⟩
  intro r h
  rw [show get_valid_batch_size 0 0 = .error () from by rfl] at h
  exact Except.noConfusion h

/-- C2 (amended): for every `total_batch` and every `min_size ≥ 1`,
`resolve` returns a value `≥ min_size`, and whenever the returned value is
not `min_size` it evenly divides `total_batch`. -/
theorem C2_resolve_lower_bound_and_divides (tb ms : Int) (hms : 1 ≤ ms) :
    ∃ r, get_valid_batch_size tb ms = .ok r ∧ ms ≤ r ∧ (r ≠ ms → r ∣ tb) := by
  obtain ⟨r, hok, hge, hdvd, _⟩ := get_valid_batch_size_characterization tb ms hms
  exact ⟨r, hok, hge, hdvd⟩

/-- Witness for C2 (amended) at `total_batch = 4096`, `min_size = 128`. -/
theorem C2_resolve_lower_bound_and_divides_witness :
    ∃ r, get_valid_batch_size 4096 128 = .ok r ∧ 128 ≤ r ∧ (r ≠ 128 → r ∣ 4096) :=
  C2_resolve_lower_bound_and_divides 4096 128 (by decide)

/-! ## String primitives for `wrap_isaac_ray_resources.py` -/

/-- Python `str.split(sep)` with a one-character separator, accumulator
form: `acc` holds the characters of the current field in reverse. -/
def pySplitAux (sep : Char) : List Char → List Char → List Str
  | [], acc => [acc.reverse]
  | c :: rest, acc =>
    if c = sep then acc.reverse :: pySplitAux sep rest []
    else pySplitAux sep rest (c :: acc)

/-- Python `s.split(sep)` for a one-character separator. -/
def pySplit (s : Str) (sep : Char) : List Str := pySplitAux sep s []

/-- Python `sep.join(parts)`. -/
def pyJoin (sep : Str) (parts : List Str) : Str := List.intercalate sep parts

/-- Python `s.endswith(sfx)`. -/
def pyEndsWith (s sfx : Str) : Bool := sfx.isSuffixOf s

theorem pySplitAux_no_sep (sep : Char) (s acc : List Char) (h : sep ∉ s) :
    pySplitAux sep s acc = [acc.reverse ++ s] := by
  induction s generalizing acc with
  | nil => simp [pySplitAux]
  | cons c rest ih =>
    have hc : c ≠ sep := fun hc => h (hc ▸ List.mem_cons_self c rest)
    have hrest : sep ∉ rest := fun hr => h (List.mem_cons_of_mem c hr)
    simp [pySplitAux, hc, ih (c :: acc) hrest]

/-- A string without the separator splits into the single whole string. -/
theorem pySplit_no_sep (s : Str) (sep : Char) (h : sep ∉ s) :
    pySplit s sep = [s] := by
  simpa using pySplitAux_no_sep sep s [] h

/-! ## `split_commands` (`wrap_isaac_ray_resources.py`, lines 231-251)

```python
def split_commands(args):
    commands = []
    current_command = []
    for arg in args:
        if arg.endswith(".py"):
            if current_command:
                commands.append(" ".join(current_command))
            current_command = [arg]
        else:
            current_command.append(arg)
    if current_command:
        commands.append(" ".join(current_command))
    return commands
```
-/

/-- The loop of `split_commands`; the second argument is `current_command`,
already-emitted commands are returned in front. -/
def split_commands_go : List Str → List Str → List Str
  | [], current_command =>
    if current_command.isEmpty then [] else [pyJoin " ".toList current_command]
  | arg :: rest, current_command =>
    if pyEndsWith arg ".py".toList then
      if current_command.isEmpty then split_commands_go rest [arg]
      else pyJoin " ".toList current_command :: split_commands_go rest [arg]
    else split_commands_go rest (current_command ++ [arg])

/-- `split_commands`. -/
def split_commands (args : List Str) : List Str := split_commands_go args []

/-! ## Resource allocation (`wrap_isaac_ray_resources.py`, lines 273-276)

```python
gpus_per_worker = args.cluster_gpu_count / len(commands)
cpus_per_worker = args.cluster_cpu_count / len(commands)
memory_per_worker = args.cluster_ram_gb / len(commands)
```

`len(commands)` is a natural number; capacities are Python floats, embedded
as rationals (on every input considered here the IEEE-double quotient is
exact, so rational division coincides with the source's float division).
Dividing by `len(commands) == 0` raises `ZeroDivisionError`, embedded as
`Except.error`. -/

/-- Per-job grant, the spec's `ResourceGrant`. -/
structure ResourceGrant where
  gpus : ℚ
  cpus : ℚ
  ram_gb : ℚ
deriving DecidableEq

/-- The failure raised by the allocation lines: Python `ZeroDivisionError`
(the realization of the spec's `InsufficientResources` for an empty job
list). -/
inductive AllocError where
  | zeroDivision
deriving DecidableEq

instance {ε α : Type} [DecidableEq ε] [DecidableEq α] :
    DecidableEq (Except ε α) := fun a b =>
  match a, b with
  | .ok x, .ok y =>
    if h : x = y then isTrue (by rw [h]) else isFalse (fun hc => by cases hc; exact h rfl)
  | .error x, .error y =>
    if h : x = y then isTrue (by rw [h]) else isFalse (fun hc => by cases hc; exact h rfl)
  | .ok _, .error _ => isFalse (fun hc => Except.noConfusion hc)
  | .error _, .ok _ => isFalse (fun hc => Except.noConfusion hc)

/-- The spec's `ResourceAllocator.allocate` as realized by the `__main__`
division lines: each capacity dimension divided by the job count. -/
def allocate (cluster_gpu_count cluster_cpu_count cluster_ram_gb : ℚ)
    (job_count : Nat) : Except AllocError ResourceGrant :=
  if job_count = 0 then .error .zeroDivision
  else .ok ⟨cluster_gpu_count / job_count, cluster_cpu_count / job_count,
            cluster_ram_gb / job_count⟩

/-- The `__main__` pipeline up to submission: parse commands, allocate; an
allocation failure aborts before `main` (hence before any submission). -/
def mainEntry (cluster_gpu_count cluster_cpu_count cluster_ram_gb : ℚ)
    (args : List Str) : Except AllocError (List Str × ResourceGrant) :=
  let commands := split_commands args
  match allocate cluster_gpu_count cluster_cpu_count cluster_ram_gb
      commands.length with
  | .error e => .error e
  | .ok g => .ok (commands, g)

/-- The jobs `main` submits (command, num_gpus, num_cpus, memory); empty
when the pipeline aborted during allocation.  `main` submits
`memory_per_worker * 1024` as the memory field. -/
def submittedJobs (cluster_gpu_count cluster_cpu_count cluster_ram_gb : ℚ)
    (test_mode : Bool) (args : List Str) : List (Str × ℚ × ℚ × ℚ) :=
  match mainEntry cluster_gpu_count cluster_cpu_count cluster_ram_gb args with
  | .error _ => []
  | .ok (commands, g) =>
    commands.map (fun c =>
      (if test_mode then "nvidia-smi".toList else c, g.gpus, g.cpus, g.ram_gb * 1024))

/-- C4: allocation with `job_count = 0` (the only value `≤ 0` of the
natural `len(commands)`) fails, and with an empty command list the
`__main__` pipeline aborts during allocation, before any job is
submitted. -/
theorem C4_allocate_zero_jobs_fails :
    (∀ (g c r : ℚ) (job_count : Nat), job_count ≤ 0 →
      allocate g c r job_count = .error .zeroDivision) ∧
    (∀ g c r : ℚ, mainEntry g c r [] = .error .zeroDivision) ∧
    (∀ (g c r : ℚ) (test_mode : Bool) (args : List Str),
      mainEntry g c r args = .error .zeroDivision →
      submittedJobs g c r test_mode args = []) := by
  refine ⟨?_, ?_, ?_⟩
  · intro g c r jc hjc
    have : jc = 0 := Nat.le_zero.mp hjc
    simp [allocate, this]
  · intro g c r
    simp [mainEntry, split_commands, split_commands_go, allocate]
  · intro g c r test_mode args h
    simp [submittedJobs, h]

/-- Witness for C4 at `job_count = 0` and the empty argument list. -/
theorem C4_allocate_zero_jobs_fails_witness :
    allocate 8 32 128 0 = .error .zeroDivision ∧
    submittedJobs 8 32 128 false [] = [] :=
  ⟨C4_allocate_zero_jobs_fails.1 8 32 128 0 (by decide),
   C4_allocate_zero_jobs_fails.2.2 8 32 128 false []
    (C4_allocate_zero_jobs_fails.2.1 8 32 128)⟩

/-- C7: with capacity `{gpus := 8, cpus := 32, ram_gb := 128}` and four
jobs and no overrides, each dimension is divided evenly by the job count,
yielding the per-job grant `{gpus := 2, cpus := 8, ram_gb := 32}`; in
general a nonzero job count divides every dimension by the job count. -/
theorem C7_allocate_even_division :
    allocate 8 32 128 4 = .ok ⟨2, 8, 32⟩ ∧
    (∀ (g c r : ℚ) (job_count : Nat), job_count ≠ 0 →
      allocate g c r job_count = .ok ⟨g / job_count, c / job_count, r / job_count⟩) := by
  constructor
  · simp [allocate]
    refine ⟨?_, ?_, ?_⟩ <;> norm_num
  · intro g c r jc hjc
    simp [allocate, hjc]

/-- Witness for C7's universally quantified part at `job_count = 4`. -/
theorem C7_allocate_even_division_witness :
    allocate 8 32 128 4 = .ok ⟨8 / (4 : Nat), 32 / (4 : Nat), 128 / (4 : Nat)⟩ :=
  C7_allocate_even_division.2 8 32 128 4 (by decide)

/-! ## `execute_command` (`wrap_isaac_ray_resources.py`, lines 148-208)

The remote task.  Observable machine state is a parameter: `osRun` maps an
argv to the behavior of launching it with `Popen` (captured stdout lines,
captured stderr, exit status, or a raised exception), `probe` is the
behavior of the `nvidia-smi` diagnostic call, `detectedGpus` is
`torch.cuda.device_count()`, and the two timestamps are the wall clock
reads.  The function is total: both the `CalledProcessError` handler and
the bare `except Exception` handler swallow failures, log them, and fall
through to building and returning `result_str`. -/

/-- Behavior of one `subprocess.Popen` launch of an argv. -/
structure ProcBehavior where
  stdoutLines : List Str
  stderrOut : Str
  exitCode : Int
  raisesMsg : Option Str
deriving DecidableEq

/-- Behavior of the `nvidia-smi` diagnostic probe: either it fails with
`CalledProcessError`, or it reports one (name, free memory, serial) line
per GPU. -/
structure TestProbe where
  fails : Bool
  gpus : List (Str × Str × Str)
deriving DecidableEq

/-- One entry appended to `result_details` for a probed GPU. -/
def renderDetail (g : Str × Str × Str) : Str :=
  "Name: ".toList ++ g.1 ++ ", Memory Available: ".toList ++ g.2.1 ++
    " MB, Serial Number: ".toList ++ g.2.2

/-- `full_invocation`: `['./isaaclab.sh', '-p'] + command.split(';')`
(the source comment says semicolons are replaced, and the code splits on
`';'`, not on whitespace). -/
def full_invocation (command : Str) : List Str :=
  "./isaaclab.sh".toList :: "-p".toList :: pySplit command ';'

/-- Everything observable about one `execute_command` run. -/
structure ExecOutcome where
  /-- The argv handed to `Popen` in the non-test branch. -/
  invocation : List Str
  /-- Lines recorded through `logging.error`. -/
  errorLogs : List Str
  /-- Stdout lines streamed live (`print(line, end="")`). -/
  streamedLines : List Str
  /-- The `result_details` list rendered into `result_str`. -/
  result_details : List Str
  /-- The returned `result_str`. -/
  resultStr : Str
deriving DecidableEq

/-- `execute_command`. -/
def execute_command (osRun : List Str → ProcBehavior) (probe : TestProbe)
    (detectedGpus : Nat) (startTime endTime : Str) (command : Str)
    (test_mode : Bool) : ExecOutcome :=
  let argv := full_invocation command
  let details : List Str :=
    if test_mode then
      if probe.fails then ["error: Failed to retrieve GPU information".toList]
      else probe.gpus.map renderDetail
    else []
  let beh := osRun argv
  let errLogs : List Str :=
    if test_mode then
      if probe.fails then ["Error calling nvidia-smi".toList] else []
    else
      match beh.raisesMsg with
      | some msg => ["Exception occurred: ".toList ++ msg]
      | none =>
        if beh.stderrOut.isEmpty then []
        else ["Error executing command: ".toList ++ beh.stderrOut]
  let streamed : List Str :=
    if test_mode then []
    else
      match beh.raisesMsg with
      | some _ => []
      | none => beh.stdoutLines
  let resultStr : Str :=
    "Job Started at ".toList ++ startTime ++ ", completed at ".toList ++
      endTime ++ " | # Detected GPUs: ".toList ++
      (toString detectedGpus).toList ++ " | Result details: ".toList ++
      pyJoin ", ".toList details
  ⟨argv, errLogs, streamed, details, resultStr⟩

/-- C10: `execute_command` splits its command string on `';'`, not on
whitespace, so a command with no semicolon — even one containing spaces —
reaches the subprocess as the single argv token after `'./isaaclab.sh'`
and `'-p'`. -/
theorem C10_semicolon_tokenization :
    (∀ command : Str, ';' ∉ command →
      full_invocation command = ["./isaaclab.sh".toList, "-p".toList, command]) ∧
    (∀ (osRun : List Str → ProcBehavior) (probe : TestProbe)
        (detectedGpus : Nat) (startTime endTime command : Str), ';' ∉ command →
      (execute_command osRun probe detectedGpus startTime endTime command
          false).invocation =
        ["./isaaclab.sh".toList, "-p".toList, command]) ∧
    full_invocation "train.py --lr 0.1".toList =
      ["./isaaclab.sh".toList, "-p".toList, "train.py --lr 0.1".toList] := by
  have key : ∀ command : Str, ';' ∉ command →
      full_invocation command = ["./isaaclab.sh".toList, "-p".toList, command] := by
    intro command h
    simp [full_invocation, pySplit_no_sep command ';' h]
  refine ⟨key, ?_, ?_⟩
  · intro osRun probe dg s e command h
    simpa [execute_command] using key command h
  · exact key "train.py --lr 0.1".toList (by decide)

/-- Witness for C10 at the command `"train.py --lr 0.1"`. -/
theorem C10_semicolon_tokenization_witness :
    full_invocation "train.py --lr 0.1".toList =
      ["./isaaclab.sh".toList, "-p".toList, "train.py --lr 0.1".toList] :=
  C10_semicolon_tokenization.1 "train.py --lr 0.1".toList (by decide)

/-- A job block for `split_commands`: a `.py`-suffixed marker token
followed by its non-marker argument tokens. -/
def markerBlock (b : Str × List Str) : Prop :=
  pyEndsWith b.1 ".py".toList = true ∧
    ∀ t ∈ b.2, pyEndsWith t ".py".toList = false

instance (b : Str × List Str) : Decidable (markerBlock b) := by
  unfold markerBlock; infer_instance

/-- Consuming non-marker tokens only extends `current_command`. -/
theorem split_commands_go_nonmarkers (ts rest cur : List Str)
    (h : ∀ t ∈ ts, pyEndsWith t ".py".toList = false) :
    split_commands_go (ts ++ rest) cur = split_commands_go rest (cur ++ ts) := by
  induction ts generalizing cur with
  | nil => simp
  | cons t ts ih =>
    have ht : pyEndsWith t ".py".toList = false := h t (List.mem_cons_self t ts)
    have hts : ∀ u ∈ ts, pyEndsWith u ".py".toList = false :=
      fun u hu => h u (List.mem_cons_of_mem t hu)
    simp only [List.cons_append, split_commands_go, ht, Bool.false_eq_true,
      if_false, List.append_eq]
    rw [ih (cur ++ [t]) hts, List.append_assoc, List.singleton_append]

/-- Running the loop over a sequence of marker-led blocks emits the pending
`current_command` (when any) followed by one joined command per block. -/
theorem split_commands_go_blocks (blocks : List (Str × List Str))
    (h : ∀ b ∈ blocks, markerBlock b) :
    (∀ cur, cur ≠ [] →
      split_commands_go ((blocks.map (fun b => b.1 :: b.2)).join) cur =
        pyJoin " ".toList cur ::
          blocks.map (fun b => pyJoin " ".toList (b.1 :: b.2))) ∧
    split_commands_go ((blocks.map (fun b => b.1 :: b.2)).join) [] =
      blocks.map (fun b => pyJoin " ".toList (b.1 :: b.2)) := by
  induction blocks with
  | nil =>
    constructor
    · intro cur hcur
      simp [split_commands_go, List.isEmpty_iff, hcur]
    · simp [split_commands_go]
  | cons b blocks ih =>
    have hb : markerBlock b := h b (List.mem_cons_self b blocks)
    have hblocks : ∀ b' ∈ blocks, markerBlock b' :=
      fun b' hb' => h b' (List.mem_cons_of_mem b hb')
    obtain ⟨ihne, ihnil⟩ := ih hblocks
    have step :
        split_commands_go (((b :: blocks).map (fun b => b.1 :: b.2)).join) [] =
          (b :: blocks).map (fun b => pyJoin " ".toList (b.1 :: b.2)) := by
      simp only [List.map_cons, List.join_cons, List.cons_append]
      rw [split_commands_go]
      simp only [hb.1, if_true, List.isEmpty_nil, if_true]
      rw [split_commands_go_nonmarkers b.2 _ [b.1] hb.2, List.singleton_append]
      exact ihne (b.1 :: b.2) (by simp)
    refine ⟨?_, step⟩
    intro cur hcur
    simp only [List.map_cons, List.join_cons, List.cons_append]
    rw [split_commands_go]
    simp only [hb.1, if_true, List.isEmpty_iff, hcur, if_false]
    rw [split_commands_go_nonmarkers b.2 _ [b.1] hb.2, List.singleton_append]
    rw [ihne (b.1 :: b.2) (by simp)]

/-- C5: `split_commands` groups each `.py`-suffixed marker token with the
following non-marker tokens up to the next marker, joining each group with
single spaces; in particular on
`["train.py", "--lr", "0.1", "eval.py", "--steps", "10"]` it yields
exactly `["train.py --lr 0.1", "eval.py --steps 10"]`. -/
theorem C5_split_commands_groups_by_marker :
    (∀ blocks : List (Str × List Str), (∀ b ∈ blocks, markerBlock b) →
      split_commands ((blocks.map (fun b => b.1 :: b.2)).join) =
        blocks.map (fun b => pyJoin " ".toList (b.1 :: b.2))) ∧
    split_commands
        ["train.py".toList, "--lr".toList, "0.1".toList,
         "eval.py".toList, "--steps".toList, "10".toList] =
      ["train.py --lr 0.1".toList, "eval.py --steps 10".toList] := by
  constructor
  · intro blocks h
    exact (split_commands_go_blocks blocks h).2
  · rfl

/-! ## The dispatcher pipeline (`main`, `wrap_isaac_ray_resources.py`,
lines 211-228)

`main` submits one `execute_command` task per command (handle `i` for the
`i`-th command) and collects them with `ray.get(job_results)`.  `ray.get`
itself is not part of this repository; per the spec it is the execution
substrate's `await(handles)`, returning one result per handle in the order
the handles are given, however the tasks actually finished.  We model the
asynchronous execution by a `completionStore` filled in an arbitrary
completion order and a lookup per handle. -/

/-- The machine state one job runs against. -/
structure JobEnv where
  osRun : List Str → ProcBehavior
  probe : TestProbe
  detectedGpus : Nat
  startTime : Str
  endTime : Str

/-- The remote task for handle `i`: `execute_command` on
`commands[i] if not test_mode else "nvidia-smi"`. -/
def runJob (env : Nat → JobEnv) (commands : List Str) (test_mode : Bool)
    (i : Nat) : ExecOutcome :=
  execute_command (env i).osRun (env i).probe (env i).detectedGpus
    (env i).startTime (env i).endTime
    (if test_mode then "nvidia-smi".toList else commands.getD i [])
    test_mode

/-- Modelled from the spec: the substrate finishes the submitted tasks in
some completion order (missing from `src`: Ray's scheduler), storing each
handle's result as it completes. -/
def completionStore (order : List Nat) (run : Nat → ExecOutcome) :
    List (Nat × ExecOutcome) :=
  order.map (fun i => (i, run i))

/-- Modelled from the spec: `ray.get(job_results)` (missing from `src`:
the substrate's `await(handles)`), which blocks until all handles have
completed and returns their results in the order the handles are given. -/
def rayGet (store : List (Nat × ExecOutcome)) (handles : List Nat) :
    List (Option ExecOutcome) :=
  handles.map (fun h => store.lookup h)

/-- `main` followed by `ray.get`: handles are `0, ..., len(commands) - 1`
in submission order; `order` is the completion order of the tasks. -/
def main_collect (env : Nat → JobEnv) (commands : List Str)
    (test_mode : Bool) (order : List Nat) : List (Option ExecOutcome) :=
  rayGet (completionStore order (runJob env commands test_mode))
    (List.range commands.length)

theorem lookup_completionStore (run : Nat → ExecOutcome) (l : List Nat)
    (h : Nat) (hm : h ∈ l) :
    (l.map (fun i => (i, run i))).lookup h = some (run h) := by
  induction l with
  | nil => cases hm
  | cons a t ih =>
    by_cases hha : h = a
    · subst hha; simp [List.lookup]
    · have hm' : h ∈ t := by
        rcases List.mem_cons.mp hm with h1 | h2
        · exact absurd h1 hha
        · exact h2
      have hba : (h == a) = false := by simp [hha]
      simp [List.lookup, hba, ih hm']

/-- Witness for C5 at the two-job token sequence of the claim. -/
theorem C5_split_commands_groups_by_marker_witness :
    split_commands
        (([(("train.py".toList : Str), ["--lr".toList, "0.1".toList]),
           (("eval.py".toList : Str), ["--steps".toList, "10".toList])].map
            (fun b => b.1 :: b.2)).join) =
      [("train.py".toList, ["--lr".toList, "0.1".toList]),
       ("eval.py".toList, ["--steps".toList, "10".toList])].map
        (fun b => pyJoin " ".toList (b.1 :: b.2)) :=
  C5_split_commands_groups_by_marker.1
    [("train.py".toList, ["--lr".toList, "0.1".toList]),
     ("eval.py".toList, ["--steps".toList, "10".toList])]
    (by decide)

/-- A process behavior that exits with status 1 but writes no stderr and
raises nothing. -/
def silentFail : ProcBehavior := ⟨[], [], 1, none⟩

/-- A process behavior that succeeds with status 0 and writes nothing. -/
def silentOk : ProcBehavior := ⟨[], [], 0, none⟩

/-- C3 counterexample: `execute_command` never reads the process exit
status (`Popen`'s return code is ignored), so a job whose command exits
with status 1 while writing no stderr yields an outcome with no error
recorded anywhere — error log and `result_details` empty, the whole
outcome identical to that of a successful zero-exit run.  The claim's
"a job whose command exits with non-zero status ... produces a result with
the error recorded" is therefore false at this input. -/
theorem C3_counterexample_silent_nonzero_exit :
    silentFail.exitCode ≠ 0 ∧
    (execute_command (fun _ => silentFail) ⟨false, []⟩ 1 [] []
      "train.py".toList false).errorLogs = [] ∧
    (execute_command (fun _ => silentFail) ⟨false, []⟩ 1 [] []
      "train.py".toList false).result_details = [] ∧
    execute_command (fun _ => silentFail) ⟨false, []⟩ 1 [] []
        "train.py".toList false =
      execute_command (fun _ => silentOk) ⟨false, []⟩ 1 [] []
        "train.py".toList false :=
  ⟨by decide, rfl, rfl, rfl⟩

/-- C3 (amended): `collect` returns one result per submitted handle in
submission order, for every completion order of the tasks; a failing job
never propagates (every handle gets a result).  A job that raises, or
whose command writes to stderr, has the error recorded in its captured
log; a non-zero exit with empty stderr is not recorded (see the
counterexample). -/
theorem C3_collect_order_and_isolation :
    (∀ (env : Nat → JobEnv) (commands : List Str) (test_mode : Bool)
        (order : List Nat), order.Perm (List.range commands.length) →
      main_collect env commands test_mode order =
        (List.range commands.length).map
          (fun i => some (runJob env commands test_mode i))) ∧
    (∀ (osRun : List Str → ProcBehavior) (probe : TestProbe)
        (dg : Nat) (s e command msg : Str),
      (osRun (full_invocation command)).raisesMsg = some msg →
      ("Exception occurred: ".toList ++ msg) ∈
        (execute_command osRun probe dg s e command false).errorLogs) ∧
    (∀ (osRun : List Str → ProcBehavior) (probe : TestProbe)
        (dg : Nat) (s e command : Str),
      (osRun (full_invocation command)).raisesMsg = none →
      (osRun (full_invocation command)).stderrOut ≠ [] →
      ("Error executing command: ".toList ++
          (osRun (full_invocation command)).stderrOut) ∈
        (execute_command osRun probe dg s e command false).errorLogs) := by
  refine ⟨?_, ?_, ?_⟩
  · intro env commands test_mode order hperm
    unfold main_collect rayGet completionStore
    refine List.map_congr_left ?_
    intro h hh
    exact lookup_completionStore (runJob env commands test_mode) order h
      (hperm.mem_iff.mpr hh)
  · intro osRun probe dg s e command msg hmsg
    simp [execute_command, hmsg]
  · intro osRun probe dg s e command hnone hstderr
    simp [execute_command, hnone, List.isEmpty_iff, hstderr]

/-- Witness for C3 (amended): two jobs, the first of which raises, with
the tasks completing in reverse order; collection still returns both
results in submission order. -/
theorem C3_collect_order_and_isolation_witness :
    main_collect
        (fun i => ⟨fun _ => if i = 0 then ⟨[], [], 1, some "boom".toList⟩
                            else silentOk,
                   ⟨false, []⟩, 1, [], []⟩)
        ["train.py".toList, "eval.py".toList] false [1, 0] =
      (List.range 2).map
        (fun i => some (runJob
          (fun i => ⟨fun _ => if i = 0 then ⟨[], [], 1, some "boom".toList⟩
                              else silentOk,
                     ⟨false, []⟩, 1, [], []⟩)
          ["train.py".toList, "eval.py".toList] false i)) :=
  C3_collect_order_and_isolation.1
    (fun i => ⟨fun _ => if i = 0 then ⟨[], [], 1, some "boom".toList⟩
                        else silentOk,
               ⟨false, []⟩, 1, [], []⟩)
    ["train.py".toList, "eval.py".toList] false [1, 0] (by decide)

/-! ## `get_cnn_layers` (`vision_cfg.py`, lines 46-73)

```python
def get_cnn_layers(_):
    layers = []
    size = 64  # Initial input size
    for _ in range(num_layers.sample()):
        valid_kernels = [k for k in [3, 4, 6, 8, 10, 12] if k <= size]
        if not valid_kernels:
            break
        kernel = int(tune.choice([str(k) for k in valid_kernels]).sample())
        stride = int(tune.choice(["1", "2", "3", "4"]).sample())
        padding = int(tune.choice(["0", "1"]).sample())
        next_size = ((size + 2 * padding - kernel) // stride) + 1
        if next_size <= 0:
            break
        layers.append({"filters": tune.randint(16, 32).sample(),
                       "kernel_size": str(kernel), "strides": str(stride),
                       "padding": str(padding)})
        size = next_size
    return layers
```

`num_layers = tune.randint(2, 3)` samples from `[2, 3)`, i.e. always `2`;
the loop bound is kept as a parameter `num_layers`.  The sampled values are
stored as decimal strings in the source and converted back with `int(...)`;
the round-trip is the identity, so the embedding stores the integers.  Each
`tune.choice` call is embedded as an index (from the choice oracle) into
the list being chosen from; `tune.randint(16, 32)` as `16 + idx % 16`. -/

/-- One CNN layer description, the spec's `LayerSpec`. -/
structure LayerSpec where
  filters : Nat
  kernel_size : Int
  strides : Int
  padding : Int
deriving DecidableEq

/-- The indices one loop iteration draws from the external sampler. -/
structure LayerChoice where
  kernelIdx : Nat
  strideIdx : Nat
  padIdx : Nat
  filterIdx : Nat
deriving DecidableEq

/-- `next_size` recomputed from a stored layer at a given input size. -/
def nextSizeCalc (size : Int) (l : LayerSpec) : Int :=
  (size + 2 * l.padding - l.kernel_size).fdiv l.strides + 1

/-- The loop of `get_cnn_layers`, generalized over the candidate sets as
the spec's `ConstrainedLayerGenerator.generate`; `fuel` is the remaining
iteration count, `step` the index of the current iteration's draws. -/
def genCnnAux (kernelCandidates strideCandidates paddingCandidates : List Int)
    (o : Nat → LayerChoice) : Nat → Nat → Int → List LayerSpec
  | 0, _, _ => []
  | fuel + 1, step, size =>
    let valid_kernels := kernelCandidates.filter (fun k => k ≤ size)
    if valid_kernels.isEmpty then []
    else
      let c := o step
      let kernel := valid_kernels.getD (c.kernelIdx % valid_kernels.length) 0
      let stride := strideCandidates.getD (c.strideIdx % strideCandidates.length) 0
      let padding :=
        paddingCandidates.getD (c.padIdx % paddingCandidates.length) 0
      let next_size := (size + 2 * padding - kernel).fdiv stride + 1
      if next_size ≤ 0 then []
      else
        ⟨16 + c.filterIdx % 16, kernel, stride, padding⟩ ::
          genCnnAux kernelCandidates strideCandidates paddingCandidates o
            fuel (step + 1) next_size

/-- The same loop with the `next_size <= 0` stop branch removed. -/
def genCnnAuxNoStop
    (kernelCandidates strideCandidates paddingCandidates : List Int)
    (o : Nat → LayerChoice) : Nat → Nat → Int → List LayerSpec
  | 0, _, _ => []
  | fuel + 1, step, size =>
    let valid_kernels := kernelCandidates.filter (fun k => k ≤ size)
    if valid_kernels.isEmpty then []
    else
      let c := o step
      let kernel := valid_kernels.getD (c.kernelIdx % valid_kernels.length) 0
      let stride := strideCandidates.getD (c.strideIdx % strideCandidates.length) 0
      let padding :=
        paddingCandidates.getD (c.padIdx % paddingCandidates.length) 0
      let next_size := (size + 2 * padding - kernel).fdiv stride + 1
      ⟨16 + c.filterIdx % 16, kernel, stride, padding⟩ ::
        genCnnAuxNoStop kernelCandidates strideCandidates paddingCandidates o
          fuel (step + 1) next_size

/-- `get_cnn_layers` with the source's candidate sets and initial size. -/
def get_cnn_layers (o : Nat → LayerChoice) (num_layers : Nat) :
    List LayerSpec :=
  genCnnAux [3, 4, 6, 8, 10, 12] [1, 2, 3, 4] [0, 1] o num_layers 0 64

/-- The chain invariant of a produced layer sequence: each layer's sampled
kernel is at most the spatial size current when it was built, and the
`next_size` it computes is positive and feeds the rest of the chain. -/
def validChain (size : Int) : List LayerSpec → Prop
  | [] => True
  | l :: rest =>
    l.kernel_size ≤ size ∧ 0 < nextSizeCalc size l ∧
      validChain (nextSizeCalc size l) rest

theorem getD_mod_mem (l : List Int) (i : Nat) (d : Int) (h : l ≠ []) :
    l.getD (i % l.length) d ∈ l := by
  have hlen : 0 < l.length := List.length_pos.mpr h
  have hlt : i % l.length < l.length := Nat.mod_lt i hlen
  rw [List.getD_eq_getElem l d hlt]
  exact List.getElem_mem hlt

/-- C6: every layer sequence the generator produces has length at most the
requested layer count, every appended layer's sampled kernel is at most the
spatial size current when that layer was built, and every appended layer's
computed `next_size` is positive — for arbitrary candidate sets and every
possible sequence of samples, and in particular for `get_cnn_layers`'s
candidate sets from initial size 64. -/
theorem C6_cnn_layers_length_and_chain :
    (∀ (kernelCandidates strideCandidates paddingCandidates : List Int)
        (o : Nat → LayerChoice) (fuel step : Nat) (size : Int),
      (genCnnAux kernelCandidates strideCandidates paddingCandidates o fuel
          step size).length ≤ fuel ∧
      validChain size (genCnnAux kernelCandidates strideCandidates
        paddingCandidates o fuel step size)) ∧
    (∀ (o : Nat → LayerChoice) (num_layers : Nat),
      (get_cnn_layers o num_layers).length ≤ num_layers ∧
      validChain 64 (get_cnn_layers o num_layers)) := by
  have main : ∀ (kC sC pC : List Int) (o : Nat → LayerChoice)
      (fuel step : Nat) (size : Int),
      (genCnnAux kC sC pC o fuel step size).length ≤ fuel ∧
      validChain size (genCnnAux kC sC pC o fuel step size) := by
    intro kC sC pC o fuel
    induction fuel with
    | zero => intro step size; exact ⟨by simp [genCnnAux], trivial⟩
    | succ fuel ih =>
      intro step size
      simp only [genCnnAux]
      split_ifs with hk hstop
      · exact ⟨by simp, trivial⟩
      · exact ⟨by simp, trivial⟩
      · have hkne : kC.filter (fun k => k ≤ size) ≠ [] := by
          intro hnil
          rw [hnil] at hk
          exact hk rfl
        have hker : (kC.filter (fun k => k ≤ size)).getD
            ((o step).kernelIdx % (kC.filter (fun k => k ≤ size)).length) 0 ∈
              kC.filter (fun k => k ≤ size) :=
          getD_mod_mem _ _ _ hkne
        have hkle : (kC.filter (fun k => k ≤ size)).getD
            ((o step).kernelIdx % (kC.filter (fun k => k ≤ size)).length) 0 ≤
              size := by
          have := List.mem_filter.mp hker
          exact of_decide_eq_true this.2
        refine ⟨?_, ?_, ?_, ?_⟩
        · simpa using Nat.succ_le_succ (ih (step + 1) _).1
        · exact hkle
        · exact not_le.mp hstop
        · exact (ih (step + 1) _).2
  refine ⟨main, ?_⟩
  intro o num_layers
  exact main [3, 4, 6, 8, 10, 12] [1, 2, 3, 4] [0, 1] o num_layers 0 64

/-- C9: with the source's candidate sets — every stride candidate positive,
every padding candidate non-negative — and the kernel filtered to be at
most the current size, the computed `next_size` is always at least 1, so
the `next_size <= 0` stop branch is never taken: the generator coincides
with the variant that has no such branch, at every size and for every
sequence of samples. -/
theorem C9_stop_branch_unreachable :
    (∀ (o : Nat → LayerChoice) (fuel step : Nat) (size : Int),
      genCnnAux [3, 4, 6, 8, 10, 12] [1, 2, 3, 4] [0, 1] o fuel step size =
        genCnnAuxNoStop [3, 4, 6, 8, 10, 12] [1, 2, 3, 4] [0, 1] o fuel
          step size) ∧
    (∀ (o : Nat → LayerChoice) (num_layers : Nat),
      get_cnn_layers o num_layers =
        genCnnAuxNoStop [3, 4, 6, 8, 10, 12] [1, 2, 3, 4] [0, 1] o
          num_layers 0 64) := by
  have main : ∀ (o : Nat → LayerChoice) (fuel step : Nat) (size : Int),
      genCnnAux [3, 4, 6, 8, 10, 12] [1, 2, 3, 4] [0, 1] o fuel step size =
        genCnnAuxNoStop [3, 4, 6, 8, 10, 12] [1, 2, 3, 4] [0, 1] o fuel
          step size := by
    intro o fuel
    induction fuel with
    | zero => intro step size; rfl
    | succ fuel ih =>
      intro step size
      simp only [genCnnAux, genCnnAuxNoStop]
      by_cases hk :
          (([3, 4, 6, 8, 10, 12] : List Int).filter
            (fun k => k ≤ size)).isEmpty
      · simp [hk]
      · have hkne :
            ([3, 4, 6, 8, 10, 12] : List Int).filter (fun k => k ≤ size) ≠
              [] := by
          intro hnil
          rw [hnil] at hk
          exact hk rfl
        have hker := getD_mod_mem
          (([3, 4, 6, 8, 10, 12] : List Int).filter (fun k => k ≤ size))
          ((o step).kernelIdx) 0 hkne
        have hkle : (([3, 4, 6, 8, 10, 12] : List Int).filter
            (fun k => k ≤ size)).getD
            ((o step).kernelIdx %
              (([3, 4, 6, 8, 10, 12] : List Int).filter
                (fun k => k ≤ size)).length) 0 ≤ size :=
          of_decide_eq_true (List.mem_filter.mp hker).2
        have hstride : (1 : Int) ≤
            ([1, 2, 3, 4] : List Int).getD
              ((o step).strideIdx % ([1, 2, 3, 4] : List Int).length) 0 := by
          have hmem := getD_mod_mem ([1, 2, 3, 4] : List Int)
            ((o step).strideIdx) 0 (by decide)
          have hall : ∀ x ∈ ([1, 2, 3, 4] : List Int), 1 ≤ x := by decide
          exact hall _ hmem
        have hpad : (0 : Int) ≤
            ([0, 1] : List Int).getD
              ((o step).padIdx % ([0, 1] : List Int).length) 0 := by
          have hmem := getD_mod_mem ([0, 1] : List Int)
            ((o step).padIdx) 0 (by decide)
          have hall : ∀ x ∈ ([0, 1] : List Int), 0 ≤ x := by decide
          exact hall _ hmem
        have hnum : (0 : Int) ≤ size +
            2 * ([0, 1] : List Int).getD
              ((o step).padIdx % ([0, 1] : List Int).length) 0 -
            (([3, 4, 6, 8, 10, 12] : List Int).filter
              (fun k => k ≤ size)).getD
              ((o step).kernelIdx %
                (([3, 4, 6, 8, 10, 12] : List Int).filter
                  (fun k => k ≤ size)).length) 0 := by omega
        have hdiv : (0 : Int) ≤ (size +
            2 * ([0, 1] : List Int).getD
              ((o step).padIdx % ([0, 1] : List Int).length) 0 -
            (([3, 4, 6, 8, 10, 12] : List Int).filter
              (fun k => k ≤ size)).getD
              ((o step).kernelIdx %
                (([3, 4, 6, 8, 10, 12] : List Int).filter
                  (fun k => k ≤ size)).length) 0).fdiv
            (([1, 2, 3, 4] : List Int).getD
              ((o step).strideIdx % ([1, 2, 3, 4] : List Int).length) 0) := by
          rw [Int.fdiv_eq_ediv _ (by omega)]
          exact Int.ediv_nonneg hnum (by omega)
        have hstop : ¬ ((size +
            2 * ([0, 1] : List Int).getD
              ((o step).padIdx % ([0, 1] : List Int).length) 0 -
            (([3, 4, 6, 8, 10, 12] : List Int).filter
              (fun k => k ≤ size)).getD
              ((o step).kernelIdx %
                (([3, 4, 6, 8, 10, 12] : List Int).filter
                  (fun k => k ≤ size)).length) 0).fdiv
            (([1, 2, 3, 4] : List Int).getD
              ((o step).strideIdx % ([1, 2, 3, 4] : List Int).length) 0) +
            1 ≤ 0) := by omega
        simp only [hk, Bool.false_eq_true, if_false, hstop, ih]
  exact ⟨main, fun o num_layers => main o num_layers 0 64⟩

/-- Modelled from the spec: the external search engine's seeded RNG
(`ray.tune`'s samplers, not part of this repository) — a deterministic
linear-congruential stream of draw indices derived from the seed. -/
def lcgNext (s : Nat) : Nat := (1103515245 * s + 12345) % 4294967296

/-- Modelled from the spec: the choices drawn at sampling step `i` when the
RNG was seeded with `seed`, a pure function of `(seed, i)`. -/
def seedChoice (seed : Nat) (i : Nat) : LayerChoice :=
  ⟨Nat.iterate lcgNext (4 * i + 1) seed, Nat.iterate lcgNext (4 * i + 2) seed,
   Nat.iterate lcgNext (4 * i + 3) seed, Nat.iterate lcgNext (4 * i + 4) seed⟩

/-- C8: the generator is deterministic given the sample stream: two runs
whose oracles draw identical choices at every step — in particular two
runs seeded identically under the seeded-RNG model — produce identical
layer sequences, for any candidate sets and any layer count. -/
theorem C8_generate_deterministic :
    (∀ (kernelCandidates strideCandidates paddingCandidates : List Int)
        (o₁ o₂ : Nat → LayerChoice) (fuel step : Nat) (size : Int),
      (∀ i, o₁ i = o₂ i) →
      genCnnAux kernelCandidates strideCandidates paddingCandidates o₁ fuel
          step size =
        genCnnAux kernelCandidates strideCandidates paddingCandidates o₂
          fuel step size) ∧
    (∀ (o₁ o₂ : Nat → LayerChoice) (num_layers : Nat), (∀ i, o₁ i = o₂ i) →
      get_cnn_layers o₁ num_layers = get_cnn_layers o₂ num_layers) ∧
    (∀ (seed₁ seed₂ num_layers : Nat), seed₁ = seed₂ →
      get_cnn_layers (seedChoice seed₁) num_layers =
        get_cnn_layers (seedChoice seed₂) num_layers) := by
  have main : ∀ (kC sC pC : List Int) (o₁ o₂ : Nat → LayerChoice)
      (fuel step : Nat) (size : Int), (∀ i, o₁ i = o₂ i) →
      genCnnAux kC sC pC o₁ fuel step size =
        genCnnAux kC sC pC o₂ fuel step size := by
    intro kC sC pC o₁ o₂ fuel
    induction fuel with
    | zero => intro step size _; rfl
    | succ fuel ih =>
      intro step size h
      simp only [genCnnAux, h step, ih (step + 1) _ h]
  refine ⟨main, fun o₁ o₂ n h => main _ _ _ o₁ o₂ n 0 64 h, ?_⟩
  intro s₁ s₂ n h
  rw [h]

/-- Witness for C8: identical oracles (and identical seeds) at two layers. -/
theorem C8_generate_deterministic_witness :
    get_cnn_layers (fun _ => ⟨0, 0, 0, 0⟩) 2 =
      get_cnn_layers (fun _ => ⟨0, 0, 0, 0⟩) 2 :=
  C8_generate_deterministic.2.1 (fun _ => ⟨0, 0, 0, 0⟩)
    (fun _ => ⟨0, 0, 0, 0⟩) 2 (fun _ => rfl)

end IsaacRay
